import Mathlib

/-
Verification of the Monte Carlo VaR engine (MCVaR_gui.py / MCVaR_Widgets.py).

Dates are modelled as integers counting calendar days, with day 0 chosen to
be a Monday, so that the Python weekday() of day d is d mod 7
(0 = Monday, ..., 5 = Saturday, 6 = Sunday); adding a timedelta of k days
is integer addition.  Numeric code (prices, returns, percentiles) is
modelled over the exact rationals; the transcendental library functions it
calls (scipy norm.ppf, numpy log, the square root inside pandas std) are
threaded through as explicit function parameters, since they are external
to the repository.  pandas NaN propagation is modelled with Option:
none stands for NaN (or for a value whose computation raises).
-/

namespace MCVaR

/-- Python weekday of an integer day count whose day 0 is a Monday. -/
def wd (d : ℤ) : ℤ := d % 7

/-- A business day is Monday (0) through Friday (4). -/
def isBiz (d : ℤ) : Prop := wd d ≠ 5 ∧ wd d ≠ 6

instance (d : ℤ) : Decidable (isBiz d) :=
  inferInstanceAs (Decidable (_ ∧ _))

/-- Forward weekend snap used at the top of getWeekdaysOut, getNumDays,
onStartDateChange and onEndDateChange: Saturday jumps 2 days and Sunday 1
day, to the following Monday.  The source sometimes writes this as two
sequential if statements and sometimes as if/elif; both compute this
function, because a snapped Saturday lands on a Monday and so never
triggers the Sunday test. -/
def snapF (d : ℤ) : ℤ :=
  if wd d = 5 then d + 2 else if wd d = 6 then d + 1 else d

/-- Backward weekend snap at the top of getWeekdaysBack: Saturday steps
back 1 day and Sunday 2 days, to the preceding Friday. -/
def snapB (d : ℤ) : ℤ :=
  if wd d = 5 then d - 1 else if wd d = 6 then d - 2 else d

/-- One iteration of the getWeekdaysOut loop body: next_date is one
calendar day ahead, but a Saturday next_date is replaced by curr_date
plus three days. -/
def stepOut (curr : ℤ) : ℤ :=
  if wd (curr + 1) = 5 then curr + 3 else curr + 1

/-- One iteration of the getWeekdaysBack loop body: next_date is one
calendar day back, but a Sunday next_date is replaced by curr_date minus
three days. -/
def stepBack (curr : ℤ) : ℤ :=
  if wd (curr - 1) = 6 then curr - 3 else curr - 1

/-- HistWindowSelect.getWeekdaysOut (and the identical
PredWindowSelect.getWeekdaysOut): snap the start forward to a business
day, then run the loop body days_out times.  The loop assigns curr_date
only at iteration i = 0, so when days_out = 0 the final
return(curr_date) reads an unassigned local and raises
UnboundLocalError, modelled here as none. -/
def getWeekdaysOut (start_date : ℤ) (days_out : ℕ) : Option ℤ :=
  if days_out = 0 then none
  else some (stepOut^[days_out] (snapF start_date))

/-- HistWindowSelect.getWeekdaysBack: the symmetric backward variant,
with the same unassigned curr_date when days_back = 0. -/
def getWeekdaysBack (start_date : ℤ) (days_back : ℕ) : Option ℤ :=
  if days_back = 0 then none
  else some (stepBack^[days_back] (snapB start_date))

/-- The while loop of PredWindowSelect.getNumDays, starting from an
already snapped curr: while curr is not end, advance one calendar day
and count it unless it is a Saturday or Sunday.  When end is strictly
below curr the loop can never terminate (curr only grows), modelled as
none. -/
def getNumDaysLoop (curr e : ℤ) : Option ℕ :=
  if curr = e then some 0
  else if e < curr then none
  else (getNumDaysLoop (curr + 1) e).map
    (fun d => if wd (curr + 1) = 5 ∨ wd (curr + 1) = 6 then d else d + 1)
termination_by (e - curr).toNat
decreasing_by
  simp_wf
  omega

/-- PredWindowSelect.getNumDays: snap the start date forward to a
business day, then count the business days strictly after it up to and
including the end date. -/
def getNumDays (start_date end_date : ℤ) : Option ℕ :=
  getNumDaysLoop (snapF start_date) end_date

/-- The mutable state of the HistWindowSelect widget that
setEndDateMinimum touches: the start date edit, the end date edit, and
the minimum bound installed on the end date edit. -/
structure HistState where
  startD : ℤ
  endD : ℤ
  endMin : ℤ
  deriving DecidableEq, Repr

/-- Errors the widget code can raise while running setEndDateMinimum. -/
inductive QtErr where
  | unboundLocal
  | attributeError
  deriving DecidableEq, Repr

/-- QDateEdit.setMinimumDateTime on the end date edit, with the
documented Qt behaviour: installing a new minimum clamps the currently
stored date up into the new range, and a change of the stored date
fires the dateChanged signal.  dateChanged of this edit is connected to
onEndDateChange, which stores the forward snapped date and emits
end_signal with it; every minimum this widget installs is an output of
getWeekdaysOut and hence already a business day, so that snap is the
identity and the handler fires exactly once.  The returned list
collects the end_signal payloads emitted by the cascade. -/
def setMinimumDateTime (st : HistState) (em : ℤ) : HistState × List ℤ :=
  if st.endD < em then ({ st with endMin := em, endD := snapF em }, [snapF em])
  else ({ st with endMin := em }, [])

/-- HistWindowSelect.setEndDateMinimum: compute
end_min = getWeekdaysOut(start, 22) and install it as the minimum of
the end date edit.  The installation itself already clamps an end date
lying below end_min up to end_min and notifies dependents through the
dateChanged cascade, so the guard at line 141 rereads an end date that
is never below end_min and is always False; the lines behind it - the
setDate and the emit on self.test_signal, an attribute the class never
defines, which would raise AttributeError if reached - are dead code,
kept here as the unreachable branch.  The result records the final
widget state, the end_signal payloads emitted, and the error raised,
if any. -/
def setEndDateMinimum (st : HistState) : (HistState × List ℤ) × Option QtErr :=
  match getWeekdaysOut st.startD 22 with
  | none => ((st, []), some QtErr.unboundLocal)
  | some em =>
    let p := setMinimumDateTime st em
    if p.1.endD < em then
      (({ p.1 with endD := snapF em }, p.2 ++ [snapF em]), some QtErr.attributeError)
    else (p, none)

/-- The price of one simulated path as a function of the step index,
from the loops of MCVaRApp.onClickRun: step 0 (inner index j = 1) sets
curr_price = p0, and every later step applies
curr_price = curr_price + (mu*curr_price + sig*curr_price*e) with the
shock e of that step. -/
def price (p0 mu sig : ℚ) (z : ℕ → ℚ) : ℕ → ℚ
  | 0 => p0
  | t + 1 => price p0 mu sig z t +
      (mu * price p0 mu sig z t + sig * price p0 mu sig z t * z (t + 1))

/-- Index into the global stream of np.random.rand draws consumed at
step t of trial i: the inner loop of trial i makes h + 1 draws, one per
j in range(1, days + 2) with t = j - 1, including the draw made and
then discarded at j = 1 where the price is simply set to p0. -/
def drawIdx (h i t : ℕ) : ℕ := i * (h + 1) + t

/-- The shock of step t of trial i: norm.ppf applied to the fresh
uniform draw of that (trial, step).  ppf, the inverse standard normal
CDF, is a scipy routine external to the repository and is threaded
through as an abstract function, and u is the uniform stream. -/
def shock (ppf : ℚ → ℚ) (u : ℕ → ℚ) (h i : ℕ) : ℕ → ℚ :=
  fun t => ppf (u (drawIdx h i t))

/-- The path list of trial i: the prices at steps 0 through h. -/
def simPath (p0 mu sig : ℚ) (ppf : ℚ → ℚ) (u : ℕ → ℚ) (h i : ℕ) : List ℚ :=
  (List.range (h + 1)).map (price p0 mu sig (shock ppf u h i))

/-- The Monte Carlo ensemble: the source hstacks k column vectors of
length h + 1 into the (h+1) x k array path_array; it is modelled as the
list of its k columns. -/
def gbmEnsemble (p0 mu sig : ℚ) (ppf : ℚ → ℚ) (u : ℕ → ℚ) (h k : ℕ) : List (List ℚ) :=
  (List.range k).map (simPath p0 mu sig ppf u h)

/-- np.percentile with its default linear interpolation: sort the data
ascending, take the fractional position q / 100 * (n - 1), and
interpolate linearly between the neighbouring order statistics.  none
models the ValueError numpy raises for q outside [0, 100] and the error
on an empty data set. -/
def npPercentile (xs : List ℚ) (q : ℚ) : Option ℚ :=
  if xs = [] then none
  else if q < 0 ∨ 100 < q then none
  else
    let s := List.insertionSort (fun a b => a ≤ b) xs
    let pos : ℚ := q / 100 * ((s.length : ℚ) - 1)
    let i : ℕ := ⌊pos⌋.toNat
    if i + 1 < s.length then
      some (s.getD i 0 + (pos - (i : ℚ)) * (s.getD (i + 1) 0 - s.getD i 0))
    else some (s.getD (s.length - 1) 0)

/-- Line 120 of MCVaR_gui.py:
var = np.max([p0 - np.percentile(t_returns, (1 - var_con) * 100), 0]). -/
def varCalc (p0 : ℚ) (t_returns : List ℚ) (c : ℚ) : Option ℚ :=
  (npPercentile t_returns ((1 - c) * 100)).map (fun pct => max (p0 - pct) 0)

/-- Lines 118 and 120 of MCVaR_gui.py: extract the terminal row
t_returns = path_array[days, :], the entry at index h of each column,
and apply varCalc to it. -/
def runVaR (p0 : ℚ) (ens : List (List ℚ)) (h : ℕ) (c : ℚ) : Option ℚ :=
  varCalc p0 (ens.map fun col => col.getD h 0) c

/-- The log return series np.log(1 - data.pct_change()) without the
leading NaN that pct_change produces: one value per consecutive pair of
prices.  lg stands for the numpy natural logarithm, an external routine
threaded through as an abstract function. -/
def logReturns (lg : ℚ → ℚ) (prices : List ℚ) : List ℚ :=
  (prices.zip prices.tail).map fun pq => lg (1 - (pq.2 - pq.1) / pq.1)

/-- The full return column as pandas sees it, including the NaN that
pct_change places at the first position (none models NaN); an empty
price series gives an empty column. -/
def nanReturns (lg : ℚ → ℚ) (prices : List ℚ) : List (Option ℚ) :=
  if prices = [] then [] else none :: (logReturns lg prices).map some

/-- pandas Series.mean with its default skipna: drop the NaN entries
and average the rest; the mean of no observations is NaN. -/
def nanMean (xs : List (Option ℚ)) : Option ℚ :=
  let vs := xs.filterMap id
  if vs.length = 0 then none else some (vs.sum / (vs.length : ℚ))

/-- pandas Series.std with its defaults (skipna, ddof = 1): drop the
NaN entries, and with m remaining observations divide the sum of
squared deviations from their mean by m - 1; with fewer than two
observations the result is NaN.  sq stands for the square root taken at
the end, threaded through as an abstract function. -/
def nanStd (sq : ℚ → ℚ) (xs : List (Option ℚ)) : Option ℚ :=
  let vs := xs.filterMap id
  if vs.length ≤ 1 then none
  else some (sq (((vs.map fun v => (v - vs.sum / (vs.length : ℚ)) ^ 2).sum) /
    ((vs.length : ℚ) - 1)))

/-- Lines 98 to 102 of MCVaR_gui.py: p0 = data.iloc[-1], the last price
of the series (none models the IndexError raised on an empty series),
mu = the skipna mean of the log return column, and sig = its skipna
sample standard deviation. -/
def calibrate (lg sq : ℚ → ℚ) (prices : List ℚ) : Option ℚ × Option ℚ × Option ℚ :=
  (prices.getLast?, nanMean (nanReturns lg prices), nanStd sq (nanReturns lg prices))

lemma snapF_biz (d : ℤ) : isBiz (snapF d) := by
  simp only [isBiz, snapF, wd]
  split_ifs <;> omega

lemma stepOut_biz {b : ℤ} (hb : isBiz b) : isBiz (stepOut b) := by
  simp only [isBiz, stepOut, wd] at *
  split_ifs <;> omega

lemma stepOut_gt (b : ℤ) : b < stepOut b := by
  simp only [stepOut]
  split_ifs <;> omega

lemma stepBack_stepOut {b : ℤ} (hb : isBiz b) : stepBack (stepOut b) = b := by
  simp only [isBiz, stepOut, stepBack, wd] at *
  split_ifs <;> omega

lemma snapB_of_biz {b : ℤ} (hb : isBiz b) : snapB b = b := by
  simp only [isBiz, snapB, wd] at *
  split_ifs <;> omega

lemma stepOut_iterate_biz : ∀ (n : ℕ) (b : ℤ), isBiz b → isBiz (stepOut^[n] b) := by
  intro n
  induction n with
  | zero => intro b hb; simpa using hb
  | succ n ih =>
    intro b hb
    rw [Function.iterate_succ_apply]
    exact ih (stepOut b) (stepOut_biz hb)

lemma le_stepOut_iterate : ∀ (n : ℕ) (c : ℤ), c ≤ stepOut^[n] c := by
  intro n
  induction n with
  | zero => intro c; simp
  | succ n ih =>
    intro c
    rw [Function.iterate_succ_apply]
    exact le_trans (le_of_lt (stepOut_gt c)) (ih (stepOut c))

lemma stepBack_iterate_stepOut :
    ∀ (n : ℕ) (b : ℤ), isBiz b → stepBack^[n] (stepOut^[n] b) = b := by
  intro n
  induction n with
  | zero => intro b _; simp
  | succ n ih =>
    intro b hb
    rw [Function.iterate_succ_apply' stepOut, Function.iterate_succ_apply stepBack,
      stepBack_stepOut (stepOut_iterate_biz n b hb)]
    exact ih b hb

lemma getNumDaysLoop_self (e : ℤ) : getNumDaysLoop e e = some 0 := by
  rw [getNumDaysLoop]
  simp

lemma getNumDaysLoop_gt {curr e : ℤ} (h : e < curr) : getNumDaysLoop curr e = none := by
  rw [getNumDaysLoop]
  have h1 : ¬ curr = e := by omega
  rw [if_neg h1, if_pos h]

lemma getNumDaysLoop_step {b e : ℤ} (hb : isBiz b) (he : stepOut b ≤ e) :
    getNumDaysLoop b e = (getNumDaysLoop (stepOut b) e).map (fun d => d + 1) := by
  simp only [isBiz, wd] at hb
  by_cases h4 : b % 7 = 4
  · have h5 : wd (b + 1) = 5 := by simp only [wd]; omega
    have h6 : wd (b + 2) = 6 := by simp only [wd]; omega
    have h0 : wd (b + 3) = 0 := by simp only [wd]; omega
    have hs : stepOut b = b + 3 := by rw [stepOut, if_pos h5]
    rw [hs] at he ⊢
    rw [getNumDaysLoop, if_neg (by omega : ¬ b = e), if_neg (by omega : ¬ e < b),
      getNumDaysLoop, if_neg (by omega : ¬ b + 1 = e), if_neg (by omega : ¬ e < b + 1),
      getNumDaysLoop, if_neg (by omega : ¬ b + 1 + 1 = e), if_neg (by omega : ¬ e < b + 1 + 1)]
    have e21 : b + 1 + 1 = b + 2 := by ring
    have e32 : b + 2 + 1 = b + 3 := by ring
    cases hx : getNumDaysLoop (b + 3) e <;>
      simp [e21, e32, h5, h6, h0, hx]
  · have h5 : ¬ wd (b + 1) = 5 := by simp only [wd]; omega
    have h6 : ¬ wd (b + 1) = 6 := by simp only [wd]; omega
    have hs : stepOut b = b + 1 := by rw [stepOut, if_neg h5]
    rw [hs] at he ⊢
    rw [getNumDaysLoop, if_neg (by omega : ¬ b = e), if_neg (by omega : ¬ e < b)]
    cases hx : getNumDaysLoop (b + 1) e <;> simp [h5, h6, hx]

lemma getNumDaysLoop_iterate :
    ∀ (n : ℕ) (b : ℤ), isBiz b → getNumDaysLoop b (stepOut^[n] b) = some n := by
  intro n
  induction n with
  | zero => intro b _; simpa using getNumDaysLoop_self b
  | succ n ih =>
    intro b hb
    rw [Function.iterate_succ_apply,
      getNumDaysLoop_step hb (le_stepOut_iterate n (stepOut b)),
      ih (stepOut b) (stepOut_biz hb)]
    rfl

lemma getNumDaysLoop_isSome_iff :
    ∀ (c e : ℤ), ((getNumDaysLoop c e).isSome = true) ↔ c ≤ e := by
  suffices H : ∀ (m : ℕ) (c e : ℤ), (e - c).toNat ≤ m →
      (((getNumDaysLoop c e).isSome = true) ↔ c ≤ e) by
    intro c e
    exact H (e - c).toNat c e le_rfl
  intro m
  induction m with
  | zero =>
    intro c e hm
    by_cases h1 : c = e
    · subst h1
      simp [getNumDaysLoop_self]
    · have h2 : e < c := by omega
      simp [getNumDaysLoop_gt h2]
      omega
  | succ m ih =>
    intro c e _hm
    by_cases h1 : c = e
    · subst h1
      simp [getNumDaysLoop_self]
    · by_cases h2 : e < c
      · simp [getNumDaysLoop_gt h2]
        omega
      · rw [getNumDaysLoop, if_neg h1, if_neg h2]
        have hrec := ih (c + 1) e (by omega)
        cases hx : getNumDaysLoop (c + 1) e <;>
          simp [hx] at hrec ⊢ <;> omega

/-- C5 counterexample: at n = 0 both functions hit the unassigned
curr_date, so the composed round trip is an error, not the snapped
input date. -/
theorem roundtrip_fails_at_zero :
    ((getWeekdaysOut 0 0).bind fun e => getWeekdaysBack e 0) ≠ some (snapF 0) := by
  decide

/-- C5 (amended to n at least 1): advancing a date d by n business days
and then retreating the result by n business days gives back the
forward business-day snap of d. -/
theorem advance_retreat_roundtrip (d : ℤ) (n : ℕ) (hn : 1 ≤ n) :
    (getWeekdaysOut d n).bind (fun e => getWeekdaysBack e n) = some (snapF d) := by
  rw [getWeekdaysOut, if_neg (by omega : ¬ n = 0)]
  rw [Option.some_bind]
  rw [getWeekdaysBack, if_neg (by omega : ¬ n = 0)]
  rw [snapB_of_biz (stepOut_iterate_biz n _ (snapF_biz d))]
  rw [stepBack_iterate_stepOut n _ (snapF_biz d)]

theorem advance_retreat_roundtrip_witness :
    1 ≤ 22 ∧ (getWeekdaysOut 5 22).bind (fun e => getWeekdaysBack e 22) = some (snapF 5) :=
  ⟨by decide, advance_retreat_roundtrip 5 22 (by decide)⟩

/-- C6 counterexample: at n = 0 the advance function raises instead of
returning a date, so counting business days up to it cannot yield 0. -/
theorem count_advance_fails_at_zero :
    ((getWeekdaysOut 0 0).bind fun e => getNumDays 0 e) ≠ some 0 := by
  decide

/-- C6 (amended to n at least 1): advancing start by n business days
gives a date e, and getNumDays counts exactly n business days from
start to e. -/
theorem count_advance_business_days (s : ℤ) (n : ℕ) (hn : 1 ≤ n) :
    ∃ e, getWeekdaysOut s n = some e ∧ getNumDays s e = some n := by
  refine ⟨stepOut^[n] (snapF s), ?_, ?_⟩
  · rw [getWeekdaysOut, if_neg (by omega : ¬ n = 0)]
  · rw [getNumDays]
    exact getNumDaysLoop_iterate n _ (snapF_biz s)

theorem count_advance_business_days_witness :
    1 ≤ 5 ∧ ∃ e, getWeekdaysOut 3 5 = some e ∧ getNumDays 3 e = some 5 :=
  ⟨by decide, count_advance_business_days 3 5 (by decide)⟩

/-- C7: contrary to the claim, a zero day count does not return the
snapped input unchanged: the loop body never assigns curr_date, so both
getWeekdaysOut and getWeekdaysBack raise UnboundLocalError (modelled
none), here evaluated at the Thursday day 3. -/
theorem getWeekdays_zero_unbound_local :
    getWeekdaysOut 3 0 = none ∧ getWeekdaysBack 3 0 = none := by
  decide

/-- C10: the getNumDays while loop terminates exactly when the end date
is on or after the business-day snap of the start date; when the end
date precedes the snapped start the loop never reaches it (none). -/
theorem getNumDays_terminates_iff (s e : ℤ) :
    ((getNumDays s e).isSome = true) ↔ snapF s ≤ e :=
  getNumDaysLoop_isSome_iff (snapF s) e

lemma snapF_of_biz {b : ℤ} (hb : isBiz b) : snapF b = b := by
  simp only [isBiz, snapF, wd] at *
  split_ifs <;> omega

/-- C4: for every widget state, setEndDateMinimum installs
advanceBusinessDays(start, 22) as the floor of the historical end
date; an end date below the floor is raised to it and the change is
signalled to dependents (one end_signal emission), while a conforming
end date is left untouched with no emission; no error is raised, since
the clamping performed by setMinimumDateTime makes the guard in front
of the dead test_signal line permanently False. -/
theorem setEndDateMinimum_spec (st : HistState) :
    ∃ em, getWeekdaysOut st.startD 22 = some em ∧
      (setEndDateMinimum st).2 = none ∧
      (setEndDateMinimum st).1.1.startD = st.startD ∧
      (setEndDateMinimum st).1.1.endMin = em ∧
      (st.endD < em → (setEndDateMinimum st).1.1.endD = em ∧
        (setEndDateMinimum st).1.2 = [em]) ∧
      (em ≤ st.endD → (setEndDateMinimum st).1.1.endD = st.endD ∧
        (setEndDateMinimum st).1.2 = []) := by
  have hem : getWeekdaysOut st.startD 22 = some (stepOut^[22] (snapF st.startD)) := by
    rw [getWeekdaysOut, if_neg (by decide : ¬ (22 : ℕ) = 0)]
  have hbiz : isBiz (stepOut^[22] (snapF st.startD)) :=
    stepOut_iterate_biz 22 _ (snapF_biz st.startD)
  have hsnap : snapF (stepOut^[22] (snapF st.startD)) = stepOut^[22] (snapF st.startD) :=
    snapF_of_biz hbiz
  set em := stepOut^[22] (snapF st.startD) with hE
  refine ⟨em, hem, ?_⟩
  by_cases hlt : st.endD < em
  · have heval : setEndDateMinimum st =
        (({ st with endMin := em, endD := em }, [em]), none) := by
      rw [setEndDateMinimum, hem]
      simp [setMinimumDateTime, hlt, hsnap]
    rw [heval]
    exact ⟨rfl, rfl, rfl, fun _ => ⟨rfl, rfl⟩, fun hge => absurd hlt (not_lt.mpr hge)⟩
  · have heval : setEndDateMinimum st =
        (({ st with endMin := em }, []), none) := by
      rw [setEndDateMinimum, hem]
      simp [setMinimumDateTime, hlt]
    rw [heval]
    exact ⟨rfl, rfl, rfl, fun hlt2 => absurd hlt2 hlt, fun _ => ⟨rfl, rfl⟩⟩

theorem setEndDateMinimum_spec_witness :
    (setEndDateMinimum ⟨0, 1, 0⟩).2 = none ∧
    (setEndDateMinimum ⟨0, 1, 0⟩).1.1.endMin = 30 ∧
    (setEndDateMinimum ⟨0, 1, 0⟩).1.1.endD = 30 ∧
    (setEndDateMinimum ⟨0, 1, 0⟩).1.2 = [30] := by
  obtain ⟨em, hem, herr, _hst, hmin, hlt, _hge⟩ := setEndDateMinimum_spec ⟨0, 1, 0⟩
  have hev : getWeekdaysOut (0 : ℤ) 22 = some 30 := by decide
  have hem30 : em = 30 := Option.some.inj (hem.symm.trans hev)
  subst hem30
  exact ⟨herr, hmin, (hlt (by decide)).1, (hlt (by decide)).2⟩

lemma range_map_getD {α : Type} (d : α) (f : ℕ → α) {n t : ℕ} (ht : t < n) :
    ((List.range n).map f).getD t d = f t := by
  rw [List.getD_eq_getElem _ d (by simpa using ht)]
  simp

/-- C1: the simulator produces the k columns of the (h+1) x k array,
each of length h + 1 and starting at p0, and each later step follows
the discrete GBM recursion driven by the inverse normal CDF of the
uniform draw belonging to that (trial, step); draw indices of distinct
(trial, step) pairs are distinct, so every shock comes from a fresh
draw. -/
theorem gbm_simulator_spec (p0 mu sig : ℚ) (ppf : ℚ → ℚ) (u : ℕ → ℚ)
    (h k : ℕ) (_hk : 1 ≤ k) :
    (gbmEnsemble p0 mu sig ppf u h k).length = k ∧
    (∀ col ∈ gbmEnsemble p0 mu sig ppf u h k, col.length = h + 1) ∧
    (∀ i, i < k → ((gbmEnsemble p0 mu sig ppf u h k).getD i []).getD 0 0 = p0) ∧
    (∀ i t, i < k → t < h →
      ((gbmEnsemble p0 mu sig ppf u h k).getD i []).getD (t + 1) 0 =
        ((gbmEnsemble p0 mu sig ppf u h k).getD i []).getD t 0 +
        (mu * ((gbmEnsemble p0 mu sig ppf u h k).getD i []).getD t 0 +
         sig * ((gbmEnsemble p0 mu sig ppf u h k).getD i []).getD t 0 *
           ppf (u (drawIdx h i (t + 1))))) ∧
    (∀ i t i2 t2, t ≤ h → t2 ≤ h →
      drawIdx h i t = drawIdx h i2 t2 → i = i2 ∧ t = t2) := by
  refine ⟨?_, ?_, ?_, ?_, ?_⟩
  · simp [gbmEnsemble]
  · intro col hcol
    simp only [gbmEnsemble, List.mem_map, List.mem_range] at hcol
    obtain ⟨i, _, rfl⟩ := hcol
    simp [simPath]
  · intro i hi
    rw [gbmEnsemble, range_map_getD _ _ hi, simPath,
      range_map_getD _ _ (by omega : 0 < h + 1)]
    rfl
  · intro i t hi ht
    rw [gbmEnsemble, range_map_getD _ _ hi, simPath,
      range_map_getD _ _ (by omega : t + 1 < h + 1),
      range_map_getD _ _ (by omega : t < h + 1)]
    rfl
  · intro i t i2 t2 ht ht2 heq
    simp only [drawIdx] at heq
    rw [Nat.mul_comm i (h + 1), Nat.mul_comm i2 (h + 1)] at heq
    have d1 : ((h + 1) * i + t) / (h + 1) = i := by
      rw [Nat.mul_add_div (by omega)]
      simp [Nat.div_eq_of_lt (by omega : t < h + 1)]
    have d2 : ((h + 1) * i2 + t2) / (h + 1) = i2 := by
      rw [Nat.mul_add_div (by omega)]
      simp [Nat.div_eq_of_lt (by omega : t2 < h + 1)]
    have hii : i = i2 := by rw [← d1, ← d2, heq]
    subst hii
    exact ⟨rfl, by omega⟩

theorem gbm_simulator_spec_witness :
    1 ≤ 2 ∧
    (gbmEnsemble 100 0 1 (fun x => x) (fun n => (n : ℚ)) 2 2).length = 2 ∧
    ((gbmEnsemble 100 0 1 (fun x => x) (fun n => (n : ℚ)) 2 2).getD 1 []).getD 0 0 = 100 ∧
    ((gbmEnsemble 100 0 1 (fun x => x) (fun n => (n : ℚ)) 2 2).getD 1 []).getD (0 + 1) 0 =
      ((gbmEnsemble 100 0 1 (fun x => x) (fun n => (n : ℚ)) 2 2).getD 1 []).getD 0 0 +
      (0 * ((gbmEnsemble 100 0 1 (fun x => x) (fun n => (n : ℚ)) 2 2).getD 1 []).getD 0 0 +
       1 * ((gbmEnsemble 100 0 1 (fun x => x) (fun n => (n : ℚ)) 2 2).getD 1 []).getD 0 0 *
         (fun x => x) ((fun n => (n : ℚ)) (drawIdx 2 1 (0 + 1)))) :=
  ⟨by decide,
   (gbm_simulator_spec 100 0 1 (fun x => x) (fun n => (n : ℚ)) 2 2 (by decide)).1,
   (gbm_simulator_spec 100 0 1 (fun x => x) (fun n => (n : ℚ)) 2 2 (by decide)).2.2.1
     1 (by decide),
   (gbm_simulator_spec 100 0 1 (fun x => x) (fun n => (n : ℚ)) 2 2 (by decide)).2.2.2.1
     1 0 (by decide) (by decide)⟩

lemma npPercentile_some (xs : List ℚ) (q : ℚ) (hxs : xs ≠ []) (h0 : 0 ≤ q)
    (h100 : q ≤ 100) : ∃ v, npPercentile xs q = some v := by
  rw [npPercentile, if_neg hxs, if_neg (by rintro (hlt | hgt) <;> linarith)]
  dsimp only
  split_ifs <;> exact ⟨_, rfl⟩

/-- C2: for a nonempty ensemble and a confidence level strictly between
0 and 1, the estimator takes the terminal row of the ensemble, its
(1-c)*100-th linear interpolation percentile exists, the returned
amount is max(p0 - percentile, 0), and that amount is nonnegative. -/
theorem var_estimator_spec (p0 : ℚ) (ens : List (List ℚ)) (h : ℕ) (c : ℚ)
    (hc0 : 0 < c) (hc1 : c < 1) (hne : ens ≠ []) :
    ∃ pct, npPercentile (ens.map fun col => col.getD h 0) ((1 - c) * 100) = some pct ∧
      runVaR p0 ens h c = some (max (p0 - pct) 0) ∧ 0 ≤ max (p0 - pct) 0 := by
  obtain ⟨v, hv⟩ := npPercentile_some (ens.map fun col => col.getD h 0)
    ((1 - c) * 100) (by simpa using hne) (by nlinarith) (by nlinarith)
  refine ⟨v, hv, ?_, le_max_right _ _⟩
  rw [runVaR, varCalc, hv]
  rfl

theorem var_estimator_spec_witness :
    (0 : ℚ) < 1/2 ∧ (1/2 : ℚ) < 1 ∧ ([[100]] : List (List ℚ)) ≠ [] ∧
    (∃ pct, npPercentile (([[100]] : List (List ℚ)).map fun col => col.getD 0 0)
        ((1 - 1/2) * 100) = some pct ∧
      runVaR 100 [[100]] 0 (1/2) = some (max (100 - pct) 0) ∧ 0 ≤ max (100 - pct) 0) :=
  ⟨by norm_num, by norm_num, by decide,
   var_estimator_spec 100 [[100]] 0 (1/2) (by norm_num) (by norm_num) (by decide)⟩

lemma npPercentile_eq_none_iff {xs : List ℚ} {q : ℚ} (hxs : xs ≠ []) :
    npPercentile xs q = none ↔ (q < 0 ∨ 100 < q) := by
  rw [npPercentile, if_neg hxs]
  by_cases hq : q < 0 ∨ 100 < q
  · simp [hq]
  · rw [if_neg hq]
    dsimp only
    split_ifs <;> simp [hq]

/-- C8 counterexample: the boundary confidence level c = 1 does not
fail: the percentile argument is 0 (the sample minimum is taken) and a
VaR amount is returned. -/
theorem var_boundary_confidence_succeeds :
    varCalc 100 [10, 20] 1 = some 90 := by
  norm_num [varCalc, npPercentile, List.insertionSort, List.orderedInsert, max_def]
  exact ⟨10, ⟨by simp, rfl⟩, by norm_num⟩

/-- C8 (amended): with a nonempty terminal row, the VaR computation
fails - with an untyped numpy ValueError, modelled as none, not with a
typed InvalidArgument - exactly when c < 0 or c > 1, because the
percentile argument (1-c)*100 then leaves [0, 100]; the boundary values
c = 0 and c = 1 are accepted and produce results from the sample
maximum and minimum. -/
theorem var_failure_iff_confidence_outside (p0 : ℚ) (xs : List ℚ) (c : ℚ)
    (hxs : xs ≠ []) :
    varCalc p0 xs c = none ↔ (c < 0 ∨ 1 < c) := by
  rw [varCalc, Option.map_eq_none', npPercentile_eq_none_iff hxs]
  have hexp : (1 - c) * 100 = 100 - 100 * c := by ring
  rw [hexp]
  constructor
  · rintro (hlt | hgt)
    · right; linarith
    · left; linarith
  · rintro (hlt | hgt)
    · right; linarith
    · left; linarith

theorem var_failure_iff_confidence_outside_witness :
    ([5] : List ℚ) ≠ [] ∧ (varCalc 0 [5] 2 = none ↔ ((2 : ℚ) < 0 ∨ (1 : ℚ) < 2)) :=
  ⟨by decide, var_failure_iff_confidence_outside 0 [5] 2 (by decide)⟩

lemma filterMap_id_map_some (l : List ℚ) : (l.map some).filterMap id = l := by
  induction l with
  | nil => rfl
  | cons a l ih => simp [ih]

lemma nanReturns_vals (lg : ℚ → ℚ) (prices : List ℚ) (h : prices ≠ []) :
    (nanReturns lg prices).filterMap id = logReturns lg prices := by
  rw [nanReturns, if_neg h]
  simp [filterMap_id_map_some]

lemma logReturns_length (lg : ℚ → ℚ) (prices : List ℚ) :
    (logReturns lg prices).length = prices.length - 1 := by
  simp only [logReturns, List.length_map, List.length_zip, List.length_tail]
  omega

/-- C3 counterexample: on the two element series [100, 110] the return
sequence has a single sample, and pandas std with its N-1 denominator
is NaN there (modelled none): calibration does not output a sample
standard deviation value for every series of at least 2 prices. -/
theorem calibrate_std_nan_at_two_prices :
    (calibrate (fun x => x) (fun x => x) [100, 110]).2.2 = none := by
  decide

/-- C3 (amended): for at least 2 prices, the return sequence pairs
consecutive prices through lg(1 - (p2 - p1)/p1), the mean is its
average, and the initial price is the last price of the series; the
sample standard deviation with N-1 denominator is produced only when
the return sequence has at least two samples (at least 3 prices), and
is NaN (none) for exactly 2 prices. -/
theorem calibrate_spec (lg sq : ℚ → ℚ) (prices : List ℚ) (hN : 2 ≤ prices.length) :
    (logReturns lg prices).length = prices.length - 1 ∧
    (∀ i, i + 1 < prices.length →
      (logReturns lg prices).getD i 0 =
        lg (1 - (prices.getD (i + 1) 0 - prices.getD i 0) / prices.getD i 0)) ∧
    (calibrate lg sq prices).1 = some (prices.getD (prices.length - 1) 0) ∧
    (calibrate lg sq prices).2.1 =
      some ((logReturns lg prices).sum / ((logReturns lg prices).length : ℚ)) ∧
    (3 ≤ prices.length →
      (calibrate lg sq prices).2.2 =
        some (sq (((logReturns lg prices).map fun r =>
            (r - (logReturns lg prices).sum /
              ((logReturns lg prices).length : ℚ)) ^ 2).sum /
          (((logReturns lg prices).length : ℚ) - 1)))) ∧
    (prices.length = 2 → (calibrate lg sq prices).2.2 = none) := by
  have hne : prices ≠ [] := by
    intro hcon
    rw [hcon] at hN
    simp at hN
  have hvals := nanReturns_vals lg prices hne
  have hlen := logReturns_length lg prices
  refine ⟨hlen, ?_, ?_, ?_, ?_, ?_⟩
  · intro i hi
    have hzip : i < (prices.zip prices.tail).length := by
      simp [List.length_zip]
      omega
    rw [logReturns, List.getD_eq_getElem _ _ (by simpa using hzip)]
    simp [List.getElem_zip, List.getElem_tail,
      List.getElem?_eq_getElem (by omega : i < prices.length),
      List.getElem?_eq_getElem (by omega : i + 1 < prices.length)]
  · rw [calibrate]
    dsimp only
    rw [List.getLast?_eq_getElem?,
      List.getElem?_eq_getElem (by omega : prices.length - 1 < prices.length),
      List.getD_eq_getElem _ _ (by omega : prices.length - 1 < prices.length)]
  · rw [calibrate]
    dsimp only
    rw [nanMean]
    simp only [hvals]
    rw [if_neg (by omega : ¬ (logReturns lg prices).length = 0)]
  · intro h3
    rw [calibrate]
    dsimp only
    rw [nanStd]
    simp only [hvals]
    rw [if_neg (by omega : ¬ (logReturns lg prices).length ≤ 1)]
  · intro h2
    rw [calibrate]
    dsimp only
    rw [nanStd]
    simp only [hvals]
    rw [if_pos (by omega : (logReturns lg prices).length ≤ 1)]

theorem calibrate_spec_witness :
    2 ≤ ([100, 110, 121] : List ℚ).length ∧
    (calibrate (fun x => x) (fun x => x) [100, 110, 121]).1 =
      some (([100, 110, 121] : List ℚ).getD
        (([100, 110, 121] : List ℚ).length - 1) 0) ∧
    (calibrate (fun x => x) (fun x => x) [100, 110, 121]).2.1 =
      some ((logReturns (fun x => x) [100, 110, 121]).sum /
        ((logReturns (fun x => x) [100, 110, 121]).length : ℚ)) :=
  ⟨by decide,
   (calibrate_spec (fun x => x) (fun x => x) [100, 110, 121] (by decide)).2.2.1,
   (calibrate_spec (fun x => x) (fun x => x) [100, 110, 121] (by decide)).2.2.2.1⟩

/-- C9 counterexample: with a single observation calibration raises no
typed error at all: it returns a value, namely the price as initial
price together with NaN (none) mean and standard deviation, and the
run continues into the simulation. -/
theorem calibrate_single_price_returns_value :
    calibrate (fun x => x) (fun x => x) [100] = (some 100, none, none) := by
  decide

/-- C9 (amended): with fewer than 2 observations there is no typed
InsufficientData failure: the mean and standard deviation outputs are
NaN (none); with exactly one observation the last price is still
produced, and only with an empty series does taking the last price fail,
with an untyped IndexError (none). -/
theorem calibrate_short_series_no_typed_error (lg sq : ℚ → ℚ) (prices : List ℚ)
    (hb : prices.length < 2) :
    (calibrate lg sq prices).2.1 = none ∧
    (calibrate lg sq prices).2.2 = none ∧
    (prices.length = 1 → (calibrate lg sq prices).1 = some (prices.getD 0 0)) ∧
    (prices = [] → (calibrate lg sq prices).1 = none) := by
  match prices, hb with
  | [], _ =>
    exact ⟨rfl, rfl, by intro hcon; simp at hcon, fun _ => rfl⟩
  | [p], _ =>
    exact ⟨rfl, rfl, fun _ => rfl, by intro hcon; simp at hcon⟩

theorem calibrate_short_series_no_typed_error_witness :
    ([7] : List ℚ).length < 2 ∧
    (calibrate (fun x => x) (fun x => x) [7]).2.1 = none ∧
    (calibrate (fun x => x) (fun x => x) [7]).2.2 = none ∧
    (calibrate (fun x => x) (fun x => x) [7]).1 = some (([7] : List ℚ).getD 0 0) :=
  ⟨by decide,
   (calibrate_short_series_no_typed_error (fun x => x) (fun x => x) [7] (by decide)).1,
   (calibrate_short_series_no_typed_error (fun x => x) (fun x => x) [7] (by decide)).2.1,
   (calibrate_short_series_no_typed_error (fun x => x) (fun x => x) [7]
     (by decide)).2.2.1 (by decide)⟩

end MCVaR
